import Mathlib

/-!
Verification of the message-correlation and session-lifecycle core of the
`deribit` Rust client (`src/rust/src/core/`).

The Rust source is shallowly embedded:
* `serde_json::Value` becomes the inductive `Json`;
* Rust `String` used by the scope codec becomes `List Char` so that the
  character-level split/join behaviour of `Scope::dump` / `Scope::parse`
  can be reasoned about; elsewhere Lean `String` is used;
* `HashMap` becomes an association list with the insert/remove/lookup
  operations used by the code;
* `u64` arithmetic is carried out on `Nat` modulo `2 ^ 64`, and the
  `expires_in as u64` cast on `Int` modulo `2 ^ 64`;
* `tokio` channels are represented by their sender tokens (`Nat`); the
  synchronous `oneshot::Sender::send` hand-off is recorded as an explicit
  `Delivery.response` value, while the *async* `mpsc::Sender::send` future
  that `handle` constructs and immediately drops unawaited is recorded as a
  `Delivery.droppedSend` effect — nothing is delivered on that path;
* the wire (`serde_json::from_str`, the WebSocket, and
  `serde_json::from_value::<AuthResponse>`) is abstracted by explicit
  function parameters, so theorems quantify over its behaviour;
* `std::time::Instant` is a `Nat` counting seconds since boot;
  `Instant + Duration` is `checked_add(...).expect(...)` over the clock's
  `i64` seconds field, so an addition whose result exceeds `2 ^ 63 - 1`
  seconds panics — modelled as `none`, and propagated as `none` by every
  function the panic would abort.
-/

namespace Deribit

/-- Modelled `serde_json::Value`. Numbers carry an `Int` payload (no claim
computes with JSON numbers). -/
inductive Json where
  | null
  | bool (b : Bool)
  | num (n : Int)
  | str (s : String)
  | arr (elems : List Json)
  | obj (fields : List (String × Json))

/-- `ApiError` from `core/error.rs`. -/
structure ApiError where
  code : Int
  message : String
  data : Option Json

/-- `Error` from `core/error.rs`. Payloads of external library errors
(`serde_json::Error`, `tungstenite::Error`, ...) are opaque and dropped. -/
inductive Error where
  | Api (err : ApiError)
  | Json
  | WebSocket
  | Channel
  | Io
  | Logic (msg : String)

/-- `Response` from `core/response.rs` (field-for-field). -/
structure Response where
  jsonrpc : String
  id : Nat
  result : Option Json
  error : Option ApiError

/-- `NotificationParams` from `core/response.rs`. -/
structure NotificationParams where
  channel : String
  data : Json

/-- `Notification` from `core/response.rs`. -/
structure Notification where
  jsonrpc : String
  params : NotificationParams

/-- `Message` from `core/response.rs`. -/
inductive Message where
  | Response (resp : Response)
  | Notification (notif : Notification)

/-- `Response::value` from `core/response.rs` (also `DeribitResponse::value`
in `core/client.rs`, which is identical). -/
def Response.value (resp : Response) : Except Error Json :=
  match resp.result with
  | some result => .ok result
  | none =>
    match resp.error with
    | some err => .error (.Api err)
    | none => .error (.Logic "Response must contain either result or error")

/-- The `u64` modulus. -/
def U64_MOD : Nat := 2 ^ 64

/-- `HashMap::get` on the association-list model. -/
def tblLookup [DecidableEq κ] (k : κ) : List (κ × α) → Option α
  | [] => none
  | (k', v) :: rest => if k' = k then some v else tblLookup k rest

/-- `HashMap::remove` on the association-list model. -/
def tblErase [DecidableEq κ] (k : κ) (t : List (κ × α)) : List (κ × α) :=
  t.filter (fun p => decide (p.1 ≠ k))

/-- `HashMap::insert` on the association-list model: the new binding
replaces any previous binding of the same key. -/
def tblInsert [DecidableEq κ] (k : κ) (v : α) (t : List (κ × α)) : List (κ × α) :=
  (k, v) :: tblErase k t

/-- `ResponseHandler` from `core/response.rs`.  `oneshot::Sender<Response>`
and `mpsc::Sender<Notification>` are represented by their tokens (`Nat`). -/
structure ResponseHandler where
  id_counter : Nat
  requests : List (Nat × Nat)
  subscriptions : List (String × Nat)

/-- `ResponseHandler::new`. -/
def ResponseHandler.new : ResponseHandler :=
  { id_counter := 0, requests := [], subscriptions := [] }

/-- An observable channel effect of `handle`.  `response` is the
synchronous `oneshot::Sender::send` hand-off: the caller really receives
the value.  `notification` stands for a notification actually received by
an `mpsc` sink; the code never produces this effect.  `droppedSend`
records what the notification branch actually does: `mpsc::Sender::send`
is an `async fn`, and `handle` (a non-async `fn`) writes
`let _ = sender.send(notif);`, constructing the send future and
immediately dropping it unpolled — nothing reaches the sink. -/
inductive Delivery where
  | response (slot : Nat) (resp : Response)
  | notification (sink : Nat) (notif : Notification)
  | droppedSend (sink : Nat) (notif : Notification)

/-- The body of `ResponseHandler::handle` after the `serde_json::from_str`
parse succeeded: dispatch one parsed `Message`, returning the updated
handler and the deliveries performed. -/
def handleMsg (h : ResponseHandler) (m : Message) : ResponseHandler × List Delivery :=
  match m with
  | .Response resp =>
    match tblLookup resp.id h.requests with
    | some slot => ({ h with requests := tblErase resp.id h.requests }, [.response slot resp])
    | none => (h, [])
  | .Notification notif =>
    match tblLookup notif.params.channel h.subscriptions with
    | some sink => (h, [.droppedSend sink notif])
    | none => (h, [])

/-- `ResponseHandler::handle` from `core/response.rs`: parse the frame (the
serde parser is the abstract parameter `p`); on parse failure the frame is
only logged and dropped. -/
def handle (p : String → Option Message) (h : ResponseHandler) (msg : String) :
    ResponseHandler × List Delivery :=
  match p msg with
  | some m => handleMsg h m
  | none => (h, [])

/-- The reader loop (`PublicClient::start_impl` in `core/client.rs`, and the
intended driver of `ResponseHandler::handle`): frames are consumed strictly
in arrival order, each one fed to `handle`. -/
def processFrames (p : String → Option Message) (h : ResponseHandler) :
    List String → ResponseHandler × List Delivery
  | [] => (h, [])
  | f :: fs =>
    let r := handle p h f
    let r' := processFrames p r.1 fs
    (r'.1, r.2 ++ r'.2)

/-- Processing a list of already-parsed messages (used to state the
concurrent-callers property independently of the parser). -/
def processMsgs (h : ResponseHandler) : List Message → ResponseHandler × List Delivery
  | [] => (h, [])
  | m :: ms =>
    let r := handleMsg h m
    let r' := processMsgs r.1 ms
    (r'.1, r.2 ++ r'.2)

/-- `ResponseHandler::subscribe` from `core/response.rs`. -/
def ResponseHandler.subscribe (h : ResponseHandler) (channel : String) (sender : Nat) :
    ResponseHandler :=
  { h with subscriptions := tblInsert channel sender h.subscriptions }

/-- `ResponseHandler::unsubscribe` from `core/response.rs`. -/
def ResponseHandler.unsubscribe (h : ResponseHandler) (channel : String) : ResponseHandler :=
  { h with subscriptions := tblErase channel h.subscriptions }

/-- `ResponseHandler::request` from `core/response.rs`: increment the `u64`
counter (wrapping), insert the reply slot under the new id, return the id.
`PublicClient::request` in `core/client.rs` allocates identically. -/
def ResponseHandler.request (h : ResponseHandler) (sender : Nat) : ResponseHandler × Nat :=
  let id := (h.id_counter + 1) % U64_MOD
  ({ h with id_counter := id, requests := tblInsert id sender h.requests }, id)

/-- One dispatcher-facing operation, for whole-lifetime traces. -/
inductive Op where
  | request (slot : Nat)
  | frame (m : Message)
  | subscribe (channel : String) (sink : Nat)
  | unsubscribe (channel : String)

/-- Run a trace of operations.  Returns the final handler, the correlation
ids handed out by the `request` operations in order, and a flag that is set
if some `request` handed out an id that still had a pending entry. -/
def runOps (h : ResponseHandler) : List Op → ResponseHandler × List Nat × Bool
  | [] => (h, [], false)
  | op :: ops =>
    match op with
    | .request slot =>
      let r := h.request slot
      let clash := (tblLookup r.2 h.requests).isSome
      let rest := runOps r.1 ops
      (rest.1, r.2 :: rest.2.1, clash || rest.2.2)
    | .frame m => runOps (handleMsg h m).1 ops
    | .subscribe ch s => runOps (h.subscribe ch s) ops
    | .unsubscribe ch => runOps (h.unsubscribe ch) ops

/-- Number of `request` operations in a trace. -/
def countAllocs : List Op → Nat
  | [] => 0
  | .request _ :: ops => countAllocs ops + 1
  | _ :: ops => countAllocs ops

/-- Iterated allocation from a fresh handler (for the wrap-around
counterexample): `allocN n` is the handler after `n` calls to `request`. -/
def allocN : Nat → ResponseHandler
  | 0 => ResponseHandler.new
  | n + 1 => ((allocN n).request 0).1

/-- `Access` from `core/scope.rs`. -/
inductive Access where
  | ReadOnly
  | ReadWrite
  | None
deriving DecidableEq

/-- `IP` from `core/scope.rs`. -/
inductive IP where
  | Any
  | Unspecified
  | This (addr : List Char)
deriving DecidableEq

/-- `std::time::Duration`: whole seconds plus a sub-second nanosecond part.
`Duration::from_secs n` is `⟨n, 0⟩`; `as_secs` is the `secs` field. -/
structure Duration where
  secs : Nat
  nanos : Nat
deriving DecidableEq

/-- `Scope` from `core/scope.rs`; Rust `String` fields are `List Char`. -/
structure Scope where
  mainaccount : Bool
  connection : Bool
  session : List Char
  account : Access
  trade : Access
  wallet : Access
  expires_in : Option Duration
  ip : IP
  block_trade : Access
  block_rfq : Access
deriving DecidableEq

/-- The two `parts.push(...)` arms of one `match self.field` block of
`Scope::dump` (`Access::None` pushes nothing). -/
def accessParts (name : List Char) : Access → List (List Char)
  | .ReadOnly => [name ++ ":read".toList]
  | .ReadWrite => [name ++ ":write".toList]
  | .None => []

/-- Decimal rendering of a `u64`, as produced by `format!` in
`Scope::dump` for `expires_in.as_secs()`. -/
def digitChar (d : Nat) : Char := Char.ofNat (48 + d)

/-- Decimal digits of `n`, most significant first; `"0"` for zero. -/
def natToChars (n : Nat) : List Char :=
  if n = 0 then ['0'] else ((Nat.digits 10 n).map digitChar).reverse

/-- `str::join(",")` from `Scope::dump`. -/
def joinComma : List (List Char) → List Char
  | [] => []
  | [p] => p
  | p :: ps => p ++ ',' :: joinComma ps

/-- Rust `str::split(sep)`: splitting an empty string yields one empty
piece, and separators at the ends yield empty pieces. -/
def splitOn (sep : Char) : List Char → List (List Char)
  | [] => [[]]
  | c :: rest =>
    if c = sep then [] :: splitOn sep rest
    else
      match splitOn sep rest with
      | [] => [[c]]
      | p :: ps => (c :: p) :: ps

/-- Rust `str::starts_with` on the character-list model. -/
def hasPrefixCL (pat s : List Char) : Bool :=
  match pat with
  | [] => true
  | c :: pat' =>
    match s with
    | [] => false
    | d :: s' => c == d && hasPrefixCL pat' s'

/-- Rust `str::parse::<u64>`: optional leading `+`, one or more decimal
digits, value below `2 ^ 64`; anything else is an error. -/
def parseU64 (s : List Char) : Option Nat :=
  let digits := if s.head? = some '+' then s.tail else s
  if digits = [] then none
  else if digits.all (fun c => c.isDigit) then
    let v := digits.foldl (fun acc c => acc * 10 + (c.toNat - 48)) 0
    if v < U64_MOD then some v else none
  else none

/-- The `expires_in` push of `Scope::dump`
(`format!` of `expires_in.as_secs()` when present). -/
def expiryParts : Option Duration → List (List Char)
  | some d => ["expires_in:".toList ++ natToChars d.secs]
  | none => []

/-- The `ip` pushes of `Scope::dump`. -/
def ipParts : IP → List (List Char)
  | .Any => ["ip:*".toList]
  | .This addr => ["ip:".toList ++ addr]
  | .Unspecified => []

/-- The `parts` vector built by `Scope::dump`, push for push in source
order. -/
def dumpParts (s : Scope) : List (List Char) :=
  (if s.mainaccount then ["mainaccount".toList] else [])
  ++ (if s.connection then ["connection".toList] else [])
  ++ ["session:".toList ++ s.session]
  ++ accessParts "account".toList s.account
  ++ accessParts "trade".toList s.trade
  ++ accessParts "wallet".toList s.wallet
  ++ expiryParts s.expires_in
  ++ ipParts s.ip
  ++ accessParts "block_trade".toList s.block_trade
  ++ accessParts "block_rfq".toList s.block_rfq

/-- `Scope::dump` from `core/scope.rs`: `parts.join(",")`. -/
def Scope.dump (s : Scope) : List Char :=
  joinComma (dumpParts s)

/-- `mergeAccess old new` is the access level after the parse loop sees the
dumped tokens of `new` starting from `old` (no token for `Access::None`). -/
def mergeAccess (old new : Access) : Access :=
  match new with
  | .None => old
  | a => a

/-- Counterpart of `mergeAccess` for the `ip` field. -/
def mergeIP (old new : IP) : IP :=
  match new with
  | .Unspecified => old
  | i => i

/-- Counterpart of `mergeAccess` for the `expires_in` field. -/
def mergeExpiry (old new : Option Duration) : Option Duration :=
  match new with
  | none => old
  | some d => some d

/-- One arm of the `for part in scope_str.split(',')` match of
`Scope::parse`, in source order; the wildcard arm ignores the token.
`s[8..]` is `drop 8`; `s.split(":").nth(1).unwrap()` is
`((splitOn ':' p).get? 1).getD []` (the guarding prefix check makes the
`unwrap` total). -/
def parseStep (sc : Scope) (p : List Char) : Scope :=
  if p = "mainaccount".toList then { sc with mainaccount := true }
  else if p = "connection".toList then { sc with connection := true }
  else if hasPrefixCL "session:".toList p then { sc with session := p.drop 8 }
  else if p = "account:read".toList then { sc with account := .ReadOnly }
  else if p = "account:write".toList then { sc with account := .ReadWrite }
  else if p = "trade:read".toList then { sc with trade := .ReadOnly }
  else if p = "trade:write".toList then { sc with trade := .ReadWrite }
  else if p = "wallet:read".toList then { sc with wallet := .ReadOnly }
  else if p = "wallet:write".toList then { sc with wallet := .ReadWrite }
  else if hasPrefixCL "expires_in:".toList p then
    match parseU64 (((splitOn ':' p).get? 1).getD []) with
    | some secs => { sc with expires_in := some ⟨secs, 0⟩ }
    | none => sc
  else if p = "ip:*".toList then { sc with ip := .Any }
  else if hasPrefixCL "ip:".toList p then
    { sc with ip := .This (((splitOn ':' p).get? 1).getD []) }
  else if p = "block_trade:read".toList then { sc with block_trade := .ReadOnly }
  else if p = "block_trade:write".toList then { sc with block_trade := .ReadWrite }
  else if p = "block_rfq:read".toList then { sc with block_rfq := .ReadOnly }
  else if p = "block_rfq:write".toList then { sc with block_rfq := .ReadWrite }
  else sc

/-- `Scope::default` from `core/scope.rs`. -/
def Scope.default : Scope :=
  { mainaccount := false
    connection := false
    session := "default".toList
    account := .None
    trade := .None
    wallet := .None
    expires_in := none
    ip := .Unspecified
    block_trade := .None
    block_rfq := .None }

/-- `Scope::parse` from `core/scope.rs`. -/
def Scope.parse (s : List Char) : Scope :=
  (splitOn ',' s).foldl parseStep Scope.default

/-- `Scope::named` from `core/scope.rs`. -/
def Scope.named (name : List Char) : Scope :=
  { Scope.default with session := name }

/-- `AuthResponse` from `core/auth.rs`, field-for-field (`expires_in` is
`i64`, hence `Int`). -/
structure AuthResponse where
  access_token : String
  enabled_features : List String
  expires_in : Int
  google_login : Bool
  mandatory_tfa_status : String
  refresh_token : String
  scope : Scope
  sid : Option String
  token_type : String

/-- `Auth` from `core/auth.rs`; the `Instant` is a `Nat` of seconds. -/
structure Auth where
  response : AuthResponse
  expires_at : Nat

/-- The largest second count the monotonic clock can hold: `i64::MAX` in
the `Timespec` seconds field backing `std::time::Instant`. -/
def I64_MAX : Nat := 2 ^ 63 - 1

/-- `Instant + Duration`: `Instant::checked_add` over the clock's `i64`
seconds, `none` when the sum is unrepresentable.  The `Add` impl is
`checked_add(dur).expect("overflow when adding duration to instant")`, so
`none` is a panic of the program. -/
def instantCheckedAdd (now secs : Nat) : Option Nat :=
  if now + secs ≤ I64_MAX then some (now + secs) else none

/-- `AuthResponse::parse` from `core/auth.rs`:
`expires_at = Instant::now() + Duration::from_secs(self.expires_in as u64)`.
The `i64 as u64` cast is value modulo `2 ^ 64`; the `Instant + Duration`
addition panics (`none`) when the cast duration overflows the clock. -/
def AuthResponse.parse (ar : AuthResponse) (now : Nat) : Option Auth :=
  match instantCheckedAdd now (ar.expires_in % (2 ^ 64 : Int)).toNat with
  | some t => some { response := ar, expires_at := t }
  | none => none

/-- `Auth::expired` from `core/auth.rs`: `expires_at <= Instant::now()`. -/
def Auth.expired (a : Auth) (now : Nat) : Bool :=
  decide (a.expires_at ≤ now)

/-- `PrivateClient` from `core/auth.rs`.  The `Arc<Mutex<SocketClient>>`
transport is represented by an opaque handle identifier, so that sharing
between derived sessions is observable. -/
structure PrivateClient where
  client : Nat
  auth : Auth

/-- One outbound call as observed on the wire: the `(method, params)` pair
handed to `SocketClient::request`. -/
structure SentCall where
  method : String
  params : Json

/-- `serde_json::Map` insert on an object's field list: replace the value
of an existing key, otherwise append the new entry. -/
def setField (fields : List (String × Json)) (k : String) (v : Json) :
    List (String × Json) :=
  match fields with
  | [] => [(k, v)]
  | (k', v') :: rest => if k' = k then (k, v) :: rest else (k', v') :: setField rest k v

/-- `serde_json::Value` index-assignment `value[key] = v`: inserts into an
object, turns `Null` into a fresh object, and panics (`none`) otherwise. -/
def Json.setKey (j : Json) (k : String) (v : Json) : Option Json :=
  match j with
  | .obj fields => some (.obj (setField fields k v))
  | .null => some (.obj [(k, v)])
  | _ => none

/-- The `params` object built inside `PrivateClient::refresh_token`. -/
def refreshParams (c : PrivateClient) : Json :=
  .obj [("grant_type", .str "refresh_token"),
        ("refresh_token", .str c.auth.response.refresh_token)]

/-- The refresh call that `PrivateClient::refresh_token` puts on the wire. -/
def refreshCall (c : PrivateClient) : SentCall :=
  ⟨"public/auth", refreshParams c⟩

/-- `PrivateClient::refresh_token` from `core/auth.rs`.  `oracle` abstracts
the wire (`self.request`), `parseAuth` abstracts
`parse_json::<AuthResponse>`; the trace of outbound calls is returned.
The outer `none` is the panic of the `Instant` addition inside
`AuthResponse::parse`. -/
def refreshToken (parseAuth : Json → Except Error AuthResponse)
    (oracle : String → Json → Except Error Response)
    (now : Nat) (c : PrivateClient) :
    Option ((Except Error Auth) × PrivateClient × List SentCall) :=
  match oracle "public/auth" (refreshParams c) with
  | .error e => some (.error e, c, [refreshCall c])
  | .ok resp =>
    match resp.value with
    | .error e => some (.error e, c, [refreshCall c])
    | .ok v =>
      match parseAuth v with
      | .error e => some (.error e, c, [refreshCall c])
      | .ok ar =>
        match ar.parse now with
        | some auth => some (.ok auth, { c with auth := auth }, [refreshCall c])
        | none => none

/-- `PrivateClient::authed_request` from `core/auth.rs`: refresh first when
the credential is expired, then inject the current access token as the
top-level `access_token` parameter and issue the call.  The outer `Option`
is `none` exactly when the program panics: a refresh whose `Instant`
addition overflows, or a `params[...] = ...` index-assignment on a
non-object. -/
def authedRequest (parseAuth : Json → Except Error AuthResponse)
    (oracle : String → Json → Except Error Response)
    (now : Nat) (c : PrivateClient) (method : String) (params : Json) :
    Option ((Except Error Response) × PrivateClient × List SentCall) :=
  if c.auth.expired now then
    match refreshToken parseAuth oracle now c with
    | none => none
    | some (.error e, c', t) => some (.error e, c', t)
    | some (.ok _, c', t) =>
      match params.setKey "access_token" (.str c'.auth.response.access_token) with
      | none => none
      | some params' => some (oracle method params', c', t ++ [⟨method, params'⟩])
  else
    match params.setKey "access_token" (.str c.auth.response.access_token) with
    | none => none
    | some params' => some (oracle method params', c, [⟨method, params'⟩])

/-- The `params` object built inside `PrivateClient::exchange_token`
(the optional scope is injected by index-assignment on the object). -/
def exchangeParams (c : PrivateClient) (subject_id : Int) (scope : Option Scope) : Json :=
  let params0 : List (String × Json) :=
    [("refresh_token", .str c.auth.response.refresh_token),
     ("subject_id", .num subject_id)]
  match scope with
  | some sc => .obj (setField params0 "scope" (.str (String.mk sc.dump)))
  | none => .obj params0

/-- `PrivateClient::exchange_token` from `core/auth.rs`: requests
`public/exchange_token` and returns the parsed `Auth` without touching
`self.auth`; `none` is the panic inside `AuthResponse::parse`. -/
def exchangeToken (parseAuth : Json → Except Error AuthResponse)
    (oracle : String → Json → Except Error Response)
    (now : Nat) (c : PrivateClient) (subject_id : Int) (scope : Option Scope) :
    Option ((Except Error Auth) × PrivateClient × List SentCall) :=
  let params := exchangeParams c subject_id scope
  let call : SentCall := ⟨"public/exchange_token", params⟩
  match oracle "public/exchange_token" params with
  | .error e => some (.error e, c, [call])
  | .ok resp =>
    match resp.value with
    | .error e => some (.error e, c, [call])
    | .ok v =>
      match parseAuth v with
      | .error e => some (.error e, c, [call])
      | .ok ar =>
        match ar.parse now with
        | some auth => some (.ok auth, c, [call])
        | none => none

/-- The `params` object built inside `PrivateClient::fork_token`. -/
def forkParams (c : PrivateClient) (session_name : String) : Json :=
  .obj [("refresh_token", .str c.auth.response.refresh_token),
        ("session_name", .str session_name)]

/-- `PrivateClient::fork_token` from `core/auth.rs`; `none` is the panic
inside `AuthResponse::parse`. -/
def forkToken (parseAuth : Json → Except Error AuthResponse)
    (oracle : String → Json → Except Error Response)
    (now : Nat) (c : PrivateClient) (session_name : String) :
    Option ((Except Error Auth) × PrivateClient × List SentCall) :=
  let params := forkParams c session_name
  let call : SentCall := ⟨"public/fork_token", params⟩
  match oracle "public/fork_token" params with
  | .error e => some (.error e, c, [call])
  | .ok resp =>
    match resp.value with
    | .error e => some (.error e, c, [call])
    | .ok v =>
      match parseAuth v with
      | .error e => some (.error e, c, [call])
      | .ok ar =>
        match ar.parse now with
        | some auth => some (.ok auth, c, [call])
        | none => none

/-- `PrivateClient::fork_session` from `core/auth.rs`: fork the token and
wrap the new `Auth` in a client sharing the same transport handle
(`Arc::clone(&self.client)`); a panic in `fork_token` propagates. -/
def forkSession (parseAuth : Json → Except Error AuthResponse)
    (oracle : String → Json → Except Error Response)
    (now : Nat) (c : PrivateClient) (session_name : String) :
    Option ((Except Error PrivateClient) × PrivateClient × List SentCall) :=
  match forkToken parseAuth oracle now c session_name with
  | none => none
  | some (.error e, c', t) => some (.error e, c', t)
  | some (.ok a, c', t) => some (.ok { client := c'.client, auth := a }, c', t)

/-- Sample response used by concrete witness instances. -/
def sampleResponse : Response :=
  { jsonrpc := "2.0", id := 5, result := some .null, error := none }

/-- Sample response with neither `result` nor `error`. -/
def emptyResponse : Response :=
  { jsonrpc := "2.0", id := 6, result := none, error := none }

/-- Sample notification used by concrete witness instances. -/
def sampleNotification : Notification :=
  { jsonrpc := "2.0", params := { channel := "trades.BTC-PERPETUAL", data := .null } }

/-- Sample dispatcher state with two pending requests and one sink. -/
def sampleHandler : ResponseHandler :=
  { id_counter := 9
    requests := [(5, 77), (6, 88)]
    subscriptions := [("trades.BTC-PERPETUAL", 3)] }

/-- Sample frame parser used by concrete witness instances. -/
def sampleParse : String → Option Message :=
  fun s => if s = "good" then some (.Response sampleResponse) else none

/-- Sample authentication payload used by concrete witness instances. -/
def sampleAuthResponse : AuthResponse :=
  { access_token := "tok-old"
    enabled_features := []
    expires_in := 0
    google_login := false
    mandatory_tfa_status := ""
    refresh_token := "refresh-1"
    scope := Scope.default
    sid := none
    token_type := "bearer" }

/-- Sample payload of a successful re-authentication. -/
def freshAuthResponse : AuthResponse :=
  { sampleAuthResponse with access_token := "tok-new", expires_in := 900 }

/-- Sample payload carrying a negative `expires_in`. -/
def negAuthResponse : AuthResponse :=
  { sampleAuthResponse with expires_in := -1 }

/-- The credential `freshAuthResponse.parse 10` builds (10 + 900 seconds). -/
def freshAuth : Auth :=
  { response := freshAuthResponse, expires_at := 910 }

/-- Sample authenticated client whose credential expires at instant 10. -/
def sampleClient : PrivateClient :=
  { client := 42, auth := { response := sampleAuthResponse, expires_at := 10 } }

/-- Sample wire behaviour: every call succeeds with a `result` payload. -/
def sampleOracle : String → Json → Except Error Response :=
  fun method _ =>
    if method = "public/auth" then
      .ok { jsonrpc := "2.0", id := 1, result := some (.str "auth-payload"), error := none }
    else
      .ok { jsonrpc := "2.0", id := 2, result := some (.str "other-payload"), error := none }

/-- Sample wire behaviour: every call fails at the transport. -/
def failOracle : String → Json → Except Error Response :=
  fun _ _ => .error .WebSocket

/-- Sample `parse_json::<AuthResponse>` behaviour: always succeeds. -/
def sampleParseAuth : Json → Except Error AuthResponse :=
  fun _ => .ok freshAuthResponse

/-- The concrete result of forking the sample client. -/
def forkResult : (Except Error PrivateClient) × PrivateClient × List SentCall :=
  (.ok { client := sampleClient.client, auth := freshAuth }, sampleClient,
   [⟨"public/fork_token", forkParams sampleClient "sess-2"⟩])

/-- Sample scope exercising every kind of dumped token. -/
def witnessScope : Scope :=
  { mainaccount := true
    connection := false
    session := "sess1".toList
    account := .ReadOnly
    trade := .ReadWrite
    wallet := .None
    expires_in := some ⟨3600, 0⟩
    ip := .This "10.0.0.1".toList
    block_trade := .None
    block_rfq := .ReadOnly }

/-! ## Helper lemmas about the association-list tables -/

theorem tblLookup_mem [DecidableEq κ] {k : κ} {v : α} :
    ∀ {t : List (κ × α)}, tblLookup k t = some v → (k, v) ∈ t := by
  intro t
  induction t with
  | nil => intro hc; simp [tblLookup] at hc
  | cons p rest ih =>
    intro hl
    obtain ⟨k', v'⟩ := p
    by_cases hk : k' = k
    · subst hk
      simp [tblLookup] at hl
      simp [hl]
    · simp [tblLookup, hk] at hl
      exact List.mem_cons_of_mem _ (ih hl)

theorem tblLookup_erase_self [DecidableEq κ] (k : κ) (t : List (κ × α)) :
    tblLookup k (tblErase k t) = none := by
  induction t with
  | nil => simp [tblErase, tblLookup]
  | cons p rest ih =>
    obtain ⟨k', v'⟩ := p
    by_cases hk : k' = k
    · subst hk; simpa [tblErase] using ih
    · simpa [tblErase, tblLookup, hk] using ih

theorem tblLookup_eq_none [DecidableEq κ] {k : κ} {t : List (κ × α)}
    (h : ∀ p ∈ t, p.1 ≠ k) : tblLookup k t = none := by
  induction t with
  | nil => simp [tblLookup]
  | cons p rest ih =>
    obtain ⟨k', v'⟩ := p
    have hk : k' ≠ k := h (k', v') (by simp)
    simp only [tblLookup, if_neg hk]
    exact ih fun q hq => h q (List.mem_cons_of_mem _ hq)

theorem filter_key_tblErase [DecidableEq κ] (k : κ) (t : List (κ × α)) :
    (tblErase k t).filter (fun q => decide (q.1 = k)) = [] := by
  rw [tblErase, List.filter_filter, List.filter_eq_nil_iff]
  intro p _
  by_cases hk : p.1 = k <;> simp [hk]

theorem mem_requests_handleMsg {h : ResponseHandler} {m : Message} {p : Nat × Nat}
    (hp : p ∈ (handleMsg h m).1.requests) : p ∈ h.requests := by
  cases m with
  | Response resp =>
    cases hl : tblLookup resp.id h.requests with
    | some slot =>
      simp only [handleMsg, hl] at hp
      exact List.mem_of_mem_filter hp
    | none => simpa only [handleMsg, hl] using hp
  | Notification notif =>
    cases hl : tblLookup notif.params.channel h.subscriptions with
    | some sink => simpa only [handleMsg, hl] using hp
    | none => simpa only [handleMsg, hl] using hp

/-! ## C1: response resolution by correlation id -/

/-- C1: when a `Response` arrives and its correlation id has a pending
entry, the dispatcher removes exactly that entry and completes its reply
slot with exactly that `Response`; with no pending entry the `Response` is
dropped; and over any sequence of inbound `Response`s, every completed
reply slot receives a `Response` whose id is the one that slot was
registered under, regardless of arrival order. -/
theorem dispatcher_resolves_by_id
    (h : ResponseHandler) (resp : Response) (slot : Nat) (rs : List Response)
    (hfound : tblLookup resp.id h.requests = some slot) :
    handleMsg h (.Response resp)
      = ({ h with requests := tblErase resp.id h.requests }, [.response slot resp])
    ∧ (∀ resp' : Response, tblLookup resp'.id h.requests = none →
        handleMsg h (.Response resp') = (h, []))
    ∧ (∀ slot' r', Delivery.response slot' r' ∈ (processMsgs h (rs.map Message.Response)).2 →
        (r'.id, slot') ∈ h.requests) := by
  refine ⟨by simp [handleMsg, hfound], fun resp' hnone => by simp [handleMsg, hnone], ?_⟩
  clear hfound
  induction rs generalizing h with
  | nil => intro slot' r' hmem; simp [processMsgs] at hmem
  | cons r rs ih =>
    intro slot' r' hmem
    simp only [List.map_cons, processMsgs, List.mem_append] at hmem
    rcases hmem with hmem | hmem
    · cases hl : tblLookup r.id h.requests with
      | some s0 =>
        simp only [handleMsg, hl, List.mem_singleton] at hmem
        obtain ⟨rfl, rfl⟩ := Delivery.response.inj hmem
        exact tblLookup_mem hl
      | none => simp [handleMsg, hl] at hmem
    · exact mem_requests_handleMsg (ih _ _ _ hmem)

/-- C1 witness at a concrete dispatcher state. -/
theorem dispatcher_resolves_by_id_witness :
    tblLookup sampleResponse.id sampleHandler.requests = some 77
    ∧ handleMsg sampleHandler (.Response sampleResponse)
        = ({ sampleHandler with requests := tblErase sampleResponse.id sampleHandler.requests },
           [.response 77 sampleResponse]) :=
  ⟨rfl, (dispatcher_resolves_by_id sampleHandler sampleResponse 77 [] rfl).1⟩

/-! ## C4: Response::value and resolution of field-less responses -/

/-- C4: `value` returns the result when present, the `Api` error when only
the error is present, and a `Logic` error when both are absent; a response
with both fields absent still removes its pending entry and completes the
slot (value extraction only fails afterwards, at the caller). -/
theorem response_value_cases
    (r : Response) (h : ResponseHandler) (slot : Nat)
    (hres : r.result = none) (herr : r.error = none)
    (hpend : tblLookup r.id h.requests = some slot) :
    r.value = .error (.Logic "Response must contain either result or error")
    ∧ handleMsg h (.Response r)
        = ({ h with requests := tblErase r.id h.requests }, [.response slot r])
    ∧ (∀ r' : Response, ∀ v, r'.result = some v → r'.value = .ok v)
    ∧ (∀ r' : Response, ∀ e, r'.result = none → r'.error = some e →
        r'.value = .error (.Api e)) := by
  refine ⟨by simp [Response.value, hres, herr], by simp [handleMsg, hpend], ?_, ?_⟩
  · intro r' v hv; simp [Response.value, hv]
  · intro r' e hv he; simp [Response.value, hv, he]

/-- C4 witness at a concrete field-less response. -/
theorem response_value_cases_witness :
    emptyResponse.result = none ∧ emptyResponse.error = none
    ∧ tblLookup emptyResponse.id sampleHandler.requests = some 88
    ∧ emptyResponse.value = .error (.Logic "Response must contain either result or error")
    ∧ handleMsg sampleHandler (.Response emptyResponse)
        = ({ sampleHandler with requests := tblErase emptyResponse.id sampleHandler.requests },
           [.response 88 emptyResponse]) :=
  ⟨rfl, rfl, rfl,
    (response_value_cases emptyResponse sampleHandler 88 rfl rfl rfl).1,
    (response_value_cases emptyResponse sampleHandler 88 rfl rfl rfl).2.1⟩

/-! ## C6: malformed frames are dropped, the loop continues -/

/-- C6: a frame that parses neither as `Response` nor as `Notification` is
dropped without affecting the loop (processing the remaining frames is
unchanged), and a valid `Response` frame arriving after a malformed one
still resolves its pending caller. -/
theorem reader_loop_survives_malformed
    (p : String → Option Message) (h : ResponseHandler) (bad good : String)
    (resp : Response) (slot : Nat)
    (hbad : p bad = none) (hgood : p good = some (.Response resp))
    (hpend : tblLookup resp.id h.requests = some slot) :
    (∀ fs, processFrames p h (bad :: fs) = processFrames p h fs)
    ∧ processFrames p h [bad, good]
        = ({ h with requests := tblErase resp.id h.requests }, [.response slot resp]) := by
  constructor
  · intro fs; simp [processFrames, handle, hbad]
  · simp [processFrames, handle, hbad, hgood, handleMsg, hpend]

/-- C6 witness: the literal frame sequence `not-json` then a valid frame. -/
theorem reader_loop_survives_malformed_witness :
    sampleParse "not-json" = none
    ∧ sampleParse "good" = some (.Response sampleResponse)
    ∧ tblLookup sampleResponse.id sampleHandler.requests = some 77
    ∧ processFrames sampleParse sampleHandler ["not-json", "good"]
        = ({ sampleHandler with requests := tblErase sampleResponse.id sampleHandler.requests },
           [.response 77 sampleResponse]) :=
  ⟨rfl, rfl, rfl,
    (reader_loop_survives_malformed sampleParse sampleHandler "not-json" "good"
      sampleResponse 77 rfl rfl rfl).2⟩

/-! ## C9: notification dispatch never delivers (code bug) -/

/-- C9 (code bug): the subscription table is last-writer-wins and a
channel without a sink is dropped silently, but the delivery conjunct
fails on the code.  `handle` looks up the sink and then executes
`let _ = sender.send(notif);` — `mpsc::Sender::send` is `async` and
`handle` is a non-async `fn`, so the send future is constructed and
immediately dropped unpolled.  The sample notification, whose channel has
sink 3 registered, produces only a dropped send future, and no run of the
handler ever produces an actual `Delivery.notification` effect. -/
theorem notification_send_future_dropped :
    tblLookup "c" ((sampleHandler.subscribe "c" 1).subscribe "c" 2).subscriptions = some 2
    ∧ tblLookup sampleNotification.params.channel sampleHandler.subscriptions = some 3
    ∧ handleMsg sampleHandler (.Notification sampleNotification)
        = (sampleHandler, [.droppedSend 3 sampleNotification])
    ∧ (∀ (h : ResponseHandler) (m : Message) (sink : Nat) (n : Notification),
        Delivery.notification sink n ∉ (handleMsg h m).2) := by
  refine ⟨rfl, rfl, rfl, ?_⟩
  intro h m sink n hmem
  cases m with
  | Response resp =>
    cases hl : tblLookup resp.id h.requests <;> simp [handleMsg, hl] at hmem
  | Notification notif =>
    cases hl : tblLookup notif.params.channel h.subscriptions <;>
      simp [handleMsg, hl] at hmem

/-! ## C2: correlation-id allocation -/

theorem allocN_id_counter (n : Nat) : (allocN n).id_counter = n % U64_MOD := by
  induction n with
  | zero => simp [allocN, ResponseHandler.new]
  | succ n ih =>
    simp only [allocN, ResponseHandler.request, ih, U64_MOD] at *
    omega

theorem one_mem_allocN : ∀ k, 1 ≤ k → k ≤ U64_MOD → (1, 0) ∈ (allocN k).requests := by
  intro k
  induction k with
  | zero => intro h1 _; omega
  | succ k ih =>
    intro _ hub
    by_cases hk : k = 0
    · subst hk
      have h1 : (0 + 1) % U64_MOD = 1 := by simp [U64_MOD]
      simp [allocN, ResponseHandler.new, ResponseHandler.request, tblInsert, tblErase, h1]
    · have hmem : (1, 0) ∈ (allocN k).requests := ih (by omega) (by omega)
      have hid : ((allocN k).id_counter + 1) % U64_MOD ≠ 1 := by
        rw [allocN_id_counter]
        simp only [U64_MOD] at hub ⊢
        omega
      simp only [allocN, ResponseHandler.request, tblInsert, tblErase]
      refine List.mem_cons_of_mem _ (List.mem_filter.mpr ⟨hmem, ?_⟩)
      simpa using fun hc => hid hc.symm

/-- C2 counterexample: the `u64` id counter wraps.  Allocation number
`2 ^ 64 - 1` (from a fresh handler) returns id `2 ^ 64 - 1`, allocation
number `2 ^ 64` returns id `0` — so the allocated ids are not strictly
increasing over the instance's lifetime — and allocation number
`2 ^ 64 + 1` hands out id `1` again while the pending entry registered
under id `1` by the very first allocation is still in the table. -/
theorem correlation_id_wraps :
    (allocN (U64_MOD - 1)).id_counter = U64_MOD - 1
    ∧ (allocN U64_MOD).id_counter = 0
    ∧ ¬ ((allocN (U64_MOD - 1)).id_counter < (allocN U64_MOD).id_counter)
    ∧ ((allocN U64_MOD).request 0).2 = 1
    ∧ (1, 0) ∈ (allocN U64_MOD).requests := by
  have h1 : (allocN (U64_MOD - 1)).id_counter = U64_MOD - 1 := by
    rw [allocN_id_counter]; simp [U64_MOD]
  have h2 : (allocN U64_MOD).id_counter = 0 := by
    rw [allocN_id_counter]; simp
  refine ⟨h1, h2, ?_, ?_, one_mem_allocN U64_MOD (by simp [U64_MOD]) le_rfl⟩
  · rw [h1, h2]; simp
  · simp only [ResponseHandler.request, h2]
    simp [U64_MOD]

theorem handleMsg_id_counter (h : ResponseHandler) (m : Message) :
    (handleMsg h m).1.id_counter = h.id_counter := by
  cases m with
  | Response resp => cases hl : tblLookup resp.id h.requests <;> simp [handleMsg, hl]
  | Notification notif =>
    cases hl : tblLookup notif.params.channel h.subscriptions <;> simp [handleMsg, hl]

theorem runOps_sound : ∀ (ops : List Op) (h : ResponseHandler),
    (∀ p ∈ h.requests, p.1 ≤ h.id_counter) →
    h.id_counter + countAllocs ops < U64_MOD →
    (∀ id ∈ (runOps h ops).2.1, h.id_counter < id)
    ∧ List.Pairwise (· < ·) (runOps h ops).2.1
    ∧ (runOps h ops).2.2 = false := by
  intro ops
  induction ops with
  | nil => intro h _ _; simp [runOps]
  | cons op ops ih =>
    intro h hk hb
    cases op with
    | request slot =>
      have hcnt : countAllocs (Op.request slot :: ops) = countAllocs ops + 1 := rfl
      have hlt : h.id_counter + 1 < U64_MOD := by omega
      have hid : (h.request slot).2 = h.id_counter + 1 := by
        simp [ResponseHandler.request, Nat.mod_eq_of_lt hlt]
      have hclash : (tblLookup (h.request slot).2 h.requests).isSome = false := by
        rw [hid, tblLookup_eq_none fun p hp => by have := hk p hp; omega]
        rfl
      have hk' : ∀ p ∈ (h.request slot).1.requests, p.1 ≤ (h.request slot).1.id_counter := by
        intro p hp
        simp only [ResponseHandler.request, Nat.mod_eq_of_lt hlt, tblInsert] at hp ⊢
        rcases List.mem_cons.mp hp with hp | hp
        · simp [hp]
        · have := hk p (List.mem_of_mem_filter hp); omega
      have hb' : (h.request slot).1.id_counter + countAllocs ops < U64_MOD := by
        simp only [ResponseHandler.request, Nat.mod_eq_of_lt hlt]
        omega
      obtain ⟨hall, hpair, hflag⟩ := ih (h.request slot).1 hk' hb'
      have hctr : (h.request slot).1.id_counter = h.id_counter + 1 := by
        simp [ResponseHandler.request, Nat.mod_eq_of_lt hlt]
      refine ⟨?_, ?_, ?_⟩
      · intro id hmem
        simp only [runOps, List.mem_cons] at hmem
        rcases hmem with rfl | hmem
        · omega
        · have := hall id hmem; omega
      · simp only [runOps]
        refine List.pairwise_cons.mpr ⟨fun id hmem => ?_, hpair⟩
        have := hall id hmem; omega
      · simp only [runOps, hclash, hflag, Bool.or_self]
    | frame m =>
      have hk' : ∀ p ∈ (handleMsg h m).1.requests, p.1 ≤ (handleMsg h m).1.id_counter := by
        intro p hp
        rw [handleMsg_id_counter]
        exact hk p (mem_requests_handleMsg hp)
      have hb' : (handleMsg h m).1.id_counter + countAllocs ops < U64_MOD := by
        rw [handleMsg_id_counter]
        exact hb
      obtain ⟨hall, hpair, hflag⟩ := ih (handleMsg h m).1 hk' hb'
      exact ⟨fun id hmem => by
          have := hall id hmem
          rw [handleMsg_id_counter] at this
          exact this,
        hpair, hflag⟩
    | subscribe ch s =>
      exact ih (h.subscribe ch s) (fun p hp => hk p hp) hb
    | unsubscribe ch =>
      exact ih (h.unsubscribe ch) (fun p hp => hk p hp) hb

/-- C2 amended: over any trace of dispatcher operations in which fewer than
`2 ^ 64` ids are allocated, the correlation ids handed out are strictly
increasing over the instance's lifetime, and an id is never handed out
while a pending entry for it is still in the table.  (The unamended claim
fails only at the `u64` wrap after `2 ^ 64` allocations, see the
counterexample.) -/
theorem correlation_ids_increase_bounded (ops : List Op)
    (hb : countAllocs ops ≤ U64_MOD - 1) :
    List.Pairwise (· < ·) (runOps ResponseHandler.new ops).2.1
    ∧ (runOps ResponseHandler.new ops).2.2 = false := by
  have hs := runOps_sound ops ResponseHandler.new
    (by intro p hp; simp [ResponseHandler.new] at hp)
    (by simp only [ResponseHandler.new, U64_MOD] at *; omega)
  exact ⟨hs.2.1, hs.2.2⟩

/-! ## Helper lemmas about the session lifecycle -/

theorem refreshToken_cases (pa : Json → Except Error AuthResponse)
    (o : String → Json → Except Error Response) (now : Nat) (c : PrivateClient)
    (r : (Except Error Auth) × PrivateClient × List SentCall)
    (h : refreshToken pa o now c = some r) :
    r.2.2 = [refreshCall c]
    ∧ (∀ e, r.1 = .error e → r.2.1 = c)
    ∧ (∀ a, r.1 = .ok a → r.2.1 = { c with auth := a }
        ∧ ∃ resp v ar, o "public/auth" (refreshParams c) = .ok resp
            ∧ resp.value = .ok v ∧ pa v = .ok ar ∧ ar.parse now = some a) := by
  unfold refreshToken at h
  split at h
  next e ho =>
    simp only [Option.some.injEq] at h
    subst h
    exact ⟨rfl, fun _ _ => rfl, fun a ha => by simp at ha⟩
  next resp ho =>
    split at h
    next e hv =>
      simp only [Option.some.injEq] at h
      subst h
      exact ⟨rfl, fun _ _ => rfl, fun a ha => by simp at ha⟩
    next v hv =>
      split at h
      next e hp =>
        simp only [Option.some.injEq] at h
        subst h
        exact ⟨rfl, fun _ _ => rfl, fun a ha => by simp at ha⟩
      next ar hp =>
        split at h
        next auth hpa =>
          simp only [Option.some.injEq] at h
          subst h
          refine ⟨rfl, fun e he => by simp at he, fun a ha => ?_⟩
          simp only [Except.ok.injEq] at ha
          subst ha
          exact ⟨rfl, resp, v, ar, ho, hv, hp, hpa⟩
        next hpa => simp at h

theorem exchangeToken_frame (pa : Json → Except Error AuthResponse)
    (o : String → Json → Except Error Response) (now : Nat) (c : PrivateClient)
    (sid : Int) (sc : Option Scope)
    (r : (Except Error Auth) × PrivateClient × List SentCall)
    (h : exchangeToken pa o now c sid sc = some r) :
    r.2.1 = c ∧ r.2.2 = [⟨"public/exchange_token", exchangeParams c sid sc⟩] := by
  simp only [exchangeToken] at h
  split at h
  next e ho => simp only [Option.some.injEq] at h; subst h; exact ⟨rfl, rfl⟩
  next resp ho =>
    split at h
    next e hv => simp only [Option.some.injEq] at h; subst h; exact ⟨rfl, rfl⟩
    next v hv =>
      split at h
      next e hp => simp only [Option.some.injEq] at h; subst h; exact ⟨rfl, rfl⟩
      next ar hp =>
        split at h
        next auth hpa => simp only [Option.some.injEq] at h; subst h; exact ⟨rfl, rfl⟩
        next hpa => simp at h

theorem forkToken_frame (pa : Json → Except Error AuthResponse)
    (o : String → Json → Except Error Response) (now : Nat) (c : PrivateClient)
    (name : String)
    (r : (Except Error Auth) × PrivateClient × List SentCall)
    (h : forkToken pa o now c name = some r) :
    r.2.1 = c ∧ r.2.2 = [⟨"public/fork_token", forkParams c name⟩] := by
  simp only [forkToken] at h
  split at h
  next e ho => simp only [Option.some.injEq] at h; subst h; exact ⟨rfl, rfl⟩
  next resp ho =>
    split at h
    next e hv => simp only [Option.some.injEq] at h; subst h; exact ⟨rfl, rfl⟩
    next v hv =>
      split at h
      next e hp => simp only [Option.some.injEq] at h; subst h; exact ⟨rfl, rfl⟩
      next ar hp =>
        split at h
        next auth hpa => simp only [Option.some.injEq] at h; subst h; exact ⟨rfl, rfl⟩
        next hpa => simp at h

theorem forkToken_ok_built (pa : Json → Except Error AuthResponse)
    (o : String → Json → Except Error Response) (now : Nat) (c : PrivateClient)
    (name : String)
    (r : (Except Error Auth) × PrivateClient × List SentCall) (a : Auth)
    (h : forkToken pa o now c name = some r) (ha : r.1 = .ok a) :
    ∃ resp v ar, o "public/fork_token" (forkParams c name) = .ok resp
      ∧ resp.value = .ok v ∧ pa v = .ok ar ∧ ar.parse now = some a := by
  simp only [forkToken] at h
  split at h
  next e ho => simp only [Option.some.injEq] at h; subst h; simp at ha
  next resp ho =>
    split at h
    next e hv => simp only [Option.some.injEq] at h; subst h; simp at ha
    next v hv =>
      split at h
      next e hp => simp only [Option.some.injEq] at h; subst h; simp at ha
      next ar hp =>
        split at h
        next auth hpa =>
          simp only [Option.some.injEq] at h
          subst h
          simp only [Except.ok.injEq] at ha
          subst ha
          exact ⟨resp, v, ar, ho, hv, hp, hpa⟩
        next hpa => simp at h

theorem forkSession_eq (pa : Json → Except Error AuthResponse)
    (o : String → Json → Except Error Response) (now : Nat) (c : PrivateClient)
    (name : String) :
    forkSession pa o now c name
      = (match forkToken pa o now c name with
         | none => none
         | some r =>
            some ((match r.1 with
                   | .error e => .error e
                   | .ok a => .ok { client := r.2.1.client, auth := a }),
                  r.2.1, r.2.2)) := by
  unfold forkSession
  split
  next heq => rw [heq]
  next e c' t heq => rw [heq]
  next a c' t heq => rw [heq]

/-! ## C3: authenticated requests refresh exactly once when expired -/

/-- C3: when the credential is expired (`now >= expires_at`), an
authenticated request performs exactly one refresh call before the
original method; on refresh success the method is sent with the refreshed
access token injected as the top-level `access_token` parameter; on
refresh failure the error propagates, nothing is retried, and the original
method is never sent (the trace is exactly the one refresh call). -/
theorem authed_request_refreshes_once (pa : Json → Except Error AuthResponse)
    (o : String → Json → Except Error Response) (now : Nat) (c : PrivateClient)
    (method : String) (params : Json)
    (hexp : c.auth.expired now = true) :
    ∀ r, refreshToken pa o now c = some r →
      (∀ e, r.1 = .error e →
          authedRequest pa o now c method params = some (.error e, c, [refreshCall c]))
      ∧ (∀ a, r.1 = .ok a →
          ∀ params', params.setKey "access_token" (.str a.response.access_token) = some params' →
            authedRequest pa o now c method params
              = some (o method params', { c with auth := a },
                      [refreshCall c, ⟨method, params'⟩])) := by
  intro r hr
  have hc := refreshToken_cases pa o now c r hr
  obtain ⟨res, c', t⟩ := r
  have ht : t = [refreshCall c] := hc.1
  subst ht
  cases res with
  | error e' =>
    have hcc : c' = c := hc.2.1 e' rfl
    subst hcc
    constructor
    · intro e he
      have he' : e' = e := by simpa using he
      subst he'
      unfold authedRequest
      rw [hexp, if_pos rfl, hr]
    · intro a ha
      exact absurd ha (by simp)
  | ok a' =>
    have hcc : c' = { c with auth := a' } := (hc.2.2 a' rfl).1
    subst hcc
    constructor
    · intro e he
      exact absurd he (by simp)
    · intro a ha params' hset
      have ha' : a' = a := by simpa using ha
      subst ha'
      unfold authedRequest
      rw [hexp, if_pos rfl, hr]
      simp [hset]

/-- C3 witness: an expired credential, a succeeding refresh, and the
injected fresh token on the follow-up call. -/
theorem authed_request_refreshes_once_witness :
    sampleClient.auth.expired 10 = true
    ∧ refreshToken sampleParseAuth sampleOracle 10 sampleClient
        = some (.ok freshAuth, { sampleClient with auth := freshAuth },
                [refreshCall sampleClient])
    ∧ (Json.obj [("p", .num 1)]).setKey "access_token"
        (.str freshAuth.response.access_token)
        = some (Json.obj [("p", .num 1), ("access_token", .str "tok-new")])
    ∧ authedRequest sampleParseAuth sampleOracle 10 sampleClient
        "private/get_account_summary" (Json.obj [("p", .num 1)])
        = some (sampleOracle "private/get_account_summary"
                  (Json.obj [("p", .num 1), ("access_token", .str "tok-new")]),
                { sampleClient with auth := freshAuth },
                [refreshCall sampleClient,
                 ⟨"private/get_account_summary",
                  Json.obj [("p", .num 1), ("access_token", .str "tok-new")]⟩]) :=
  ⟨rfl, rfl, rfl,
    ((authed_request_refreshes_once sampleParseAuth sampleOracle 10 sampleClient
        "private/get_account_summary" (Json.obj [("p", .num 1)]) rfl)
      (.ok freshAuth, { sampleClient with auth := freshAuth }, [refreshCall sampleClient])
      rfl).2
      freshAuth rfl
      (Json.obj [("p", .num 1), ("access_token", .str "tok-new")]) rfl⟩

/-! ## C7: failed refresh leaves the credential untouched -/

/-- C7: if the refresh fails (transport error, server-reported error, or
unparseable payload) the prior credential is left entirely unchanged and
the error is the returned value; only on success is the credential
replaced, as a whole, by one built from the server's response. -/
theorem refresh_failure_leaves_credential (pa : Json → Except Error AuthResponse)
    (o : String → Json → Except Error Response) (now : Nat) (c : PrivateClient) :
    ∀ r, refreshToken pa o now c = some r →
      (∀ e, r.1 = .error e → r.2.1 = c ∧ r.2.2 = [refreshCall c])
      ∧ (∀ a, r.1 = .ok a →
          r.2.1 = { c with auth := a }
          ∧ ∃ resp v ar, o "public/auth" (refreshParams c) = .ok resp
              ∧ resp.value = .ok v ∧ pa v = .ok ar ∧ ar.parse now = some a) := by
  intro r hr
  have hc := refreshToken_cases pa o now c r hr
  exact ⟨fun e he => ⟨hc.2.1 e he, hc.1⟩, hc.2.2⟩

/-- C7 witness: a transport-failing refresh leaves the sample client's
credential in place. -/
theorem refresh_failure_leaves_credential_witness :
    refreshToken sampleParseAuth failOracle 10 sampleClient
      = some (.error .WebSocket, sampleClient, [refreshCall sampleClient])
    ∧ ((.error Error.WebSocket : Except Error Auth), sampleClient,
        [refreshCall sampleClient]).2.1 = sampleClient :=
  ⟨rfl,
    ((refresh_failure_leaves_credential sampleParseAuth failOracle 10 sampleClient
        (.error .WebSocket, sampleClient, [refreshCall sampleClient]) rfl).1
      .WebSocket rfl).1⟩

/-! ## C8: deriving sessions never mutates the parent -/

/-- C8: whenever `exchange_token`, `fork_token` or `fork_session` returns
(rather than panicking), the parent client — and hence its whole `Auth` —
is unchanged; a successfully forked child shares the parent's transport
handle while owning an independent credential newly built from the
server's response. -/
theorem derive_preserves_parent (pa : Json → Except Error AuthResponse)
    (o : String → Json → Except Error Response) (now : Nat) (c : PrivateClient)
    (sid : Int) (sc : Option Scope) (name : String) :
    (∀ r, exchangeToken pa o now c sid sc = some r → r.2.1 = c)
    ∧ (∀ r, forkToken pa o now c name = some r → r.2.1 = c)
    ∧ (∀ r, forkSession pa o now c name = some r → r.2.1 = c)
    ∧ (∀ r child, forkSession pa o now c name = some r → r.1 = .ok child →
        child.client = c.client
        ∧ ∃ rt a, forkToken pa o now c name = some rt ∧ rt.1 = .ok a ∧ child.auth = a
            ∧ ∃ resp v ar, o "public/fork_token" (forkParams c name) = .ok resp
                ∧ resp.value = .ok v ∧ pa v = .ok ar ∧ ar.parse now = some a) := by
  refine ⟨fun r hr => (exchangeToken_frame pa o now c sid sc r hr).1,
          fun r hr => (forkToken_frame pa o now c name r hr).1, ?_, ?_⟩
  · intro r hr
    rw [forkSession_eq] at hr
    cases hft : forkToken pa o now c name with
    | none => rw [hft] at hr; simp at hr
    | some rt =>
      rw [hft] at hr
      simp only [Option.some.injEq] at hr
      subst hr
      exact (forkToken_frame pa o now c name rt hft).1
  · intro r child hr hok
    rw [forkSession_eq] at hr
    cases hft : forkToken pa o now c name with
    | none => rw [hft] at hr; simp at hr
    | some rt =>
      rw [hft] at hr
      simp only [Option.some.injEq] at hr
      subst hr
      simp only at hok
      cases hok2 : rt.1 with
      | error e => rw [hok2] at hok; simp at hok
      | ok a =>
        rw [hok2] at hok
        simp only [Except.ok.injEq] at hok
        subst hok
        refine ⟨?_, rt, a, rfl, hok2, rfl,
          forkToken_ok_built pa o now c name rt a hft hok2⟩
        rw [(forkToken_frame pa o now c name rt hft).1]

/-- C8 witness: a concrete fork leaves the parent untouched and the child
shares handle 42. -/
theorem derive_preserves_parent_witness :
    forkSession sampleParseAuth sampleOracle 10 sampleClient "sess-2" = some forkResult
    ∧ forkResult.2.1 = sampleClient
    ∧ PrivateClient.client { client := sampleClient.client, auth := freshAuth }
        = sampleClient.client :=
  ⟨rfl,
    (derive_preserves_parent sampleParseAuth sampleOracle 10 sampleClient
        69914 none "sess-2").2.2.1 forkResult rfl,
    ((derive_preserves_parent sampleParseAuth sampleOracle 10 sampleClient
        69914 none "sess-2").2.2.2 forkResult
      { client := sampleClient.client, auth := freshAuth } rfl rfl).1⟩

/-! ## C10: negative expires_in panics in the credential builder -/

/-- C10 counterexample: with `expires_in = -1` the wrapping `i64 as u64`
cast yields `2 ^ 64 - 1` seconds — at least `2 ^ 63` — and adding that
duration to the instant overflows the clock, so `AuthResponse::parse`
panics (`none`): no credential is built at all, so in particular none that
reports not-expired. -/
theorem negative_expires_in_panics :
    negAuthResponse.expires_in < 0
    ∧ (2 ^ 63 : Nat) ≤ ((2 ^ 64 : Int) + negAuthResponse.expires_in).toNat
    ∧ negAuthResponse.parse 7 = none :=
  ⟨by decide, by decide, rfl⟩

/-- C10 amended: a negative `expires_in` (within `i64` range) goes through
the wrapping `i64 as u64` cast, producing a duration of
`2 ^ 64 + expires_in` — at least `2 ^ 63` — seconds; adding it to the
monotonic clock's instant overflows the clock's `i64` seconds for every
current instant, so `Instant + Duration` panics and building the
credential aborts instead of yielding a far-future, not-expired
credential. -/
theorem negative_expires_in_overflow (ar : AuthResponse) (now : Nat)
    (hneg : ar.expires_in < 0) (hrange : -(2 ^ 63 : Int) ≤ ar.expires_in) :
    (ar.expires_in % (2 ^ 64 : Int)).toNat = ((2 ^ 64 : Int) + ar.expires_in).toNat
    ∧ (2 ^ 63 : Nat) ≤ (ar.expires_in % (2 ^ 64 : Int)).toNat
    ∧ ar.parse now = none := by
  have h64 : (2 : Int) ^ 64 = 18446744073709551616 := by norm_num
  have h63 : (2 : Int) ^ 63 = 9223372036854775808 := by norm_num
  have h63n : (2 : Nat) ^ 63 = 9223372036854775808 := by norm_num
  rw [h63] at hrange
  have hmod : (ar.expires_in % (2 ^ 64 : Int)).toNat
      = ((2 ^ 64 : Int) + ar.expires_in).toNat := by
    rw [h64]; omega
  have hge : (2 ^ 63 : Nat) ≤ (ar.expires_in % (2 ^ 64 : Int)).toNat := by
    rw [hmod, h64, h63n]; omega
  refine ⟨hmod, hge, ?_⟩
  rw [h63n] at hge
  simp only [AuthResponse.parse, instantCheckedAdd, I64_MAX]
  rw [if_neg (by rw [h63n]; omega)]

/-- C10 witness at `expires_in = -1`. -/
theorem negative_expires_in_overflow_witness :
    negAuthResponse.expires_in < 0
    ∧ -(2 ^ 63 : Int) ≤ negAuthResponse.expires_in
    ∧ negAuthResponse.parse 9 = none :=
  ⟨by decide, by decide,
    (negative_expires_in_overflow negAuthResponse 9 (by decide) (by decide)).2.2⟩

/-- C2 witness at a concrete operation trace. -/
theorem correlation_ids_increase_bounded_witness :
    countAllocs [Op.request 7, Op.frame (.Response sampleResponse), Op.request 8] ≤ U64_MOD - 1
    ∧ List.Pairwise (· < ·)
        (runOps ResponseHandler.new
          [Op.request 7, Op.frame (.Response sampleResponse), Op.request 8]).2.1
    ∧ (runOps ResponseHandler.new
        [Op.request 7, Op.frame (.Response sampleResponse), Op.request 8]).2.2 = false :=
  ⟨by norm_num [countAllocs, U64_MOD],
    (correlation_ids_increase_bounded _ (by norm_num [countAllocs, U64_MOD])).1,
    (correlation_ids_increase_bounded _ (by norm_num [countAllocs, U64_MOD])).2⟩

/-! ## Helper lemmas for the scope codec -/

theorem splitOn_of_not_mem (sep : Char) (p : List Char) (h : sep ∉ p) :
    splitOn sep p = [p] := by
  induction p with
  | nil => rfl
  | cons c cs ih =>
    have hc : c ≠ sep := fun hc => h (hc ▸ List.mem_cons_self c cs)
    have hcs : sep ∉ cs := fun hm => h (List.mem_cons_of_mem _ hm)
    simp only [splitOn, if_neg hc, ih hcs]

theorem splitOn_append (sep : Char) (p rest : List Char) (h : sep ∉ p) :
    splitOn sep (p ++ sep :: rest) = p :: splitOn sep rest := by
  induction p with
  | nil => simp [splitOn]
  | cons c cs ih =>
    have hc : c ≠ sep := fun hc => h (hc ▸ List.mem_cons_self c cs)
    have hcs : sep ∉ cs := fun hm => h (List.mem_cons_of_mem _ hm)
    simp only [List.cons_append, splitOn, if_neg hc, List.append_eq, ih hcs]

theorem joinComma_cons (p : List Char) (ps : List (List Char)) (h : ps ≠ []) :
    joinComma (p :: ps) = p ++ ',' :: joinComma ps := by
  cases ps with
  | nil => exact absurd rfl h
  | cons q ps => rfl

theorem splitOn_joinComma : ∀ ps : List (List Char), ps ≠ [] → (∀ p ∈ ps, ',' ∉ p) →
    splitOn ',' (joinComma ps) = ps := by
  intro ps
  induction ps with
  | nil => intro h _; exact absurd rfl h
  | cons p ps ih =>
    intro _ hall
    cases ps with
    | nil => exact splitOn_of_not_mem ',' p (hall p (by simp))
    | cons q ps' =>
      rw [joinComma_cons p (q :: ps') (by simp),
        splitOn_append ',' p _ (hall p (by simp)),
        ih (by simp) (fun r hr => hall r (List.mem_cons_of_mem _ hr))]

theorem joinComma_append_single (ps : List (List Char)) (h : ps ≠ []) (q : List Char) :
    joinComma (ps ++ [q]) = joinComma ps ++ ',' :: q := by
  induction ps with
  | nil => exact absurd rfl h
  | cons p ps ih =>
    cases ps with
    | nil => rfl
    | cons r ps' =>
      rw [List.cons_append, joinComma_cons p ((r :: ps') ++ [q]) (by simp),
        ih (by simp), joinComma_cons p (r :: ps') (by simp), List.append_assoc]
      rfl

theorem digitChar_digit (d : Nat) (h : d < 10) : (digitChar d).isDigit = true := by
  interval_cases d <;> decide

theorem digitChar_toNat (d : Nat) (h : d < 10) : (digitChar d).toNat = 48 + d := by
  interval_cases d <;> decide

theorem natToChars_ne_nil (n : Nat) : natToChars n ≠ [] := by
  by_cases hn : n = 0
  · subst hn; decide
  · simp only [natToChars, if_neg hn]
    simp [Nat.digits_ne_nil_iff_ne_zero.mpr hn]

theorem natToChars_all_digit (n : Nat) : ∀ c ∈ natToChars n, c.isDigit = true := by
  by_cases hn : n = 0
  · subst hn; decide
  · simp only [natToChars, if_neg hn]
    intro c hc
    rw [List.mem_reverse, List.mem_map] at hc
    obtain ⟨d, hd, rfl⟩ := hc
    exact digitChar_digit d (Nat.digits_lt_base (by norm_num) hd)

theorem isDigit_ne_comma {c : Char} (h : c.isDigit = true) : c ≠ ',' := by
  intro hc; subst hc; simp at h

theorem isDigit_ne_colon {c : Char} (h : c.isDigit = true) : c ≠ ':' := by
  intro hc; subst hc; simp at h

theorem isDigit_ne_plus {c : Char} (h : c.isDigit = true) : c ≠ '+' := by
  intro hc; subst hc; simp at h

theorem foldr_digitChar (L : List Nat) (h : ∀ d ∈ L, d < 10) :
    L.foldr (fun d acc => acc * 10 + ((digitChar d).toNat - 48)) 0 = Nat.ofDigits 10 L := by
  induction L with
  | nil => simp
  | cons d L ih =>
    have hd : d < 10 := h d (by simp)
    have hL := ih fun x hx => h x (List.mem_cons_of_mem _ hx)
    simp only [List.foldr_cons, hL, digitChar_toNat d hd, Nat.ofDigits_cons]
    omega

theorem parseU64_natToChars (n : Nat) (h : n < U64_MOD) :
    parseU64 (natToChars n) = some n := by
  by_cases hn : n = 0
  · subst hn; decide
  · have hS : natToChars n = ((Nat.digits 10 n).map digitChar).reverse := by
      simp [natToChars, hn]
    obtain ⟨c, cs, hcons⟩ := List.exists_cons_of_ne_nil (natToChars_ne_nil n)
    have hcdig : c.isDigit = true := natToChars_all_digit n c (by rw [hcons]; simp)
    have hhead : ¬ ((natToChars n).head? = some '+') := by
      rw [hcons]
      simp only [List.head?_cons, Option.some.injEq]
      exact isDigit_ne_plus hcdig
    have hne : ¬ (natToChars n = []) := natToChars_ne_nil n
    have hall : (natToChars n).all (fun c => c.isDigit) = true :=
      List.all_eq_true.mpr fun c hc => natToChars_all_digit n c hc
    have hv : (natToChars n).foldl (fun acc c => acc * 10 + (c.toNat - 48)) 0 = n := by
      rw [hS, List.foldl_reverse, List.foldr_map]
      have := foldr_digitChar (Nat.digits 10 n)
        (fun d hd => Nat.digits_lt_base (by norm_num) hd)
      rw [show (fun (x : Nat) (y : Nat) => y * 10 + ((digitChar x).toNat - 48))
            = (fun d acc => acc * 10 + ((digitChar d).toNat - 48)) from rfl, this]
      exact Nat.ofDigits_digits 10 n
    simp only [parseU64, if_neg hhead, if_neg hne, hall, if_pos trivial, hv, if_pos h]

theorem parseStep_session (acc : Scope) (t : List Char) :
    parseStep acc ("session:".toList ++ t) = { acc with session := t } := rfl

theorem parseStep_expires (acc : Scope) (t : List Char) (n : Nat)
    (ht : ':' ∉ t) (hp : parseU64 t = some n) :
    parseStep acc ("expires_in:".toList ++ t) = { acc with expires_in := some ⟨n, 0⟩ } := by
  have key : parseStep acc ("expires_in:".toList ++ t)
      = (match parseU64 (((splitOn ':' ("expires_in:".toList ++ t)).get? 1).getD []) with
         | some secs => { acc with expires_in := some ⟨secs, 0⟩ }
         | none => acc) := rfl
  have h1 : "expires_in:".toList ++ t = "expires_in".toList ++ ':' :: t := rfl
  rw [key, h1, splitOn_append ':' _ t (by decide), splitOn_of_not_mem ':' t ht]
  simp [hp]

theorem parseStep_ip_this (acc : Scope) (addr : List Char)
    (hstar : addr ≠ "*".toList) (hcol : ':' ∉ addr) :
    parseStep acc ("ip:".toList ++ addr) = { acc with ip := .This addr } := by
  have key : parseStep acc ("ip:".toList ++ addr)
      = (if ("ip:".toList ++ addr) = "ip:*".toList then { acc with ip := .Any }
         else { acc with ip := .This (((splitOn ':' ("ip:".toList ++ addr)).get? 1).getD []) }) :=
    rfl
  have h1 : "ip:".toList ++ addr = "ip".toList ++ ':' :: addr := rfl
  have hne : ¬ ("ip:".toList ++ addr = "ip:*".toList) := by
    intro hc
    exact hstar (List.append_cancel_left (hc.trans (rfl : "ip:*".toList = "ip:".toList ++ ['*'])))
  rw [key, if_neg hne, h1, splitOn_append ':' _ addr (by decide),
    splitOn_of_not_mem ':' addr hcol]
  rfl

theorem foldl_mainaccount (acc : Scope) (b : Bool) :
    List.foldl parseStep acc (if b then ["mainaccount".toList] else [])
      = { acc with mainaccount := acc.mainaccount || b } := by
  cases b with
  | false => simp
  | true =>
    have h1 : List.foldl parseStep acc ["mainaccount".toList]
        = { acc with mainaccount := true } := rfl
    simpa [Bool.or_true] using h1

theorem foldl_connection (acc : Scope) (b : Bool) :
    List.foldl parseStep acc (if b then ["connection".toList] else [])
      = { acc with connection := acc.connection || b } := by
  cases b with
  | false => simp
  | true =>
    have h1 : List.foldl parseStep acc ["connection".toList]
        = { acc with connection := true } := rfl
    simpa [Bool.or_true] using h1

theorem foldl_session (acc : Scope) (t : List Char) :
    List.foldl parseStep acc ["session:".toList ++ t] = { acc with session := t } := rfl

theorem foldl_account (acc : Scope) (a : Access) :
    List.foldl parseStep acc (accessParts "account".toList a)
      = { acc with account := mergeAccess acc.account a } := by
  cases a <;> rfl

theorem foldl_trade (acc : Scope) (a : Access) :
    List.foldl parseStep acc (accessParts "trade".toList a)
      = { acc with trade := mergeAccess acc.trade a } := by
  cases a <;> rfl

theorem foldl_wallet (acc : Scope) (a : Access) :
    List.foldl parseStep acc (accessParts "wallet".toList a)
      = { acc with wallet := mergeAccess acc.wallet a } := by
  cases a <;> rfl

theorem foldl_block_trade (acc : Scope) (a : Access) :
    List.foldl parseStep acc (accessParts "block_trade".toList a)
      = { acc with block_trade := mergeAccess acc.block_trade a } := by
  cases a <;> rfl

theorem foldl_block_rfq (acc : Scope) (a : Access) :
    List.foldl parseStep acc (accessParts "block_rfq".toList a)
      = { acc with block_rfq := mergeAccess acc.block_rfq a } := by
  cases a <;> rfl

theorem foldl_expiry (acc : Scope) (e : Option Duration)
    (he : ∀ d, e = some d → d.nanos = 0 ∧ d.secs < U64_MOD) :
    List.foldl parseStep acc (expiryParts e)
      = { acc with expires_in := mergeExpiry acc.expires_in e } := by
  cases e with
  | none => rfl
  | some d =>
    obtain ⟨hnan, hlt⟩ := he d rfl
    have ht : ':' ∉ natToChars d.secs := fun hm =>
      isDigit_ne_colon (natToChars_all_digit d.secs ':' hm) rfl
    simp only [expiryParts, List.foldl_cons, List.foldl_nil,
      parseStep_expires acc (natToChars d.secs) d.secs ht (parseU64_natToChars d.secs hlt)]
    obtain ⟨secs, nanos⟩ := d
    simp only at hnan
    subst hnan
    rfl

theorem foldl_ip (acc : Scope) (i : IP)
    (hi : ∀ addr, i = .This addr → addr ≠ "*".toList ∧ ':' ∉ addr) :
    List.foldl parseStep acc (ipParts i)
      = { acc with ip := mergeIP acc.ip i } := by
  cases i with
  | Any => rfl
  | Unspecified => rfl
  | This addr =>
    obtain ⟨hstar, hcol⟩ := hi addr rfl
    simp only [ipParts, List.foldl_cons, List.foldl_nil, parseStep_ip_this acc addr hstar hcol]
    rfl

theorem mergeAccess_none (a : Access) : mergeAccess .None a = a := by
  cases a <;> rfl

theorem mergeIP_unspecified (i : IP) : mergeIP .Unspecified i = i := by
  cases i <;> rfl

theorem mergeExpiry_none (e : Option Duration) : mergeExpiry none e = e := by
  cases e <;> rfl

theorem mem_accessParts {p name : List Char} {a : Access} (h : p ∈ accessParts name a) :
    p = name ++ ":read".toList ∨ p = name ++ ":write".toList := by
  cases a <;> simp [accessParts] at h <;> simp [h]

theorem mem_ite_singleton {c : Prop} [Decidable c] {p x : List Char}
    (h : p ∈ (if c then [x] else [])) : p = x := by
  split at h
  · simpa using h
  · simp at h

theorem dumpParts_ne_nil (s : Scope) : dumpParts s ≠ [] := by
  simp [dumpParts]

theorem dumpParts_comma_free (s : Scope) (hsess : ',' ∉ s.session)
    (hipc : ∀ addr, s.ip = .This addr → ',' ∉ addr) :
    ∀ p ∈ dumpParts s, ',' ∉ p := by
  obtain ⟨ma, co, sess, ac, tr, wa, ex, ip, bt, br⟩ := s
  intro p hp
  simp only [dumpParts, List.mem_append] at hp
  rcases hp with ((((((((hp | hp) | hp) | hp) | hp) | hp) | hp) | hp) | hp) | hp
  · rw [mem_ite_singleton hp]; decide
  · rw [mem_ite_singleton hp]; decide
  · rw [List.mem_singleton.mp hp]
    intro hc
    rcases List.mem_append.mp hc with hc | hc
    · exact absurd hc (by decide)
    · exact hsess hc
  · rcases mem_accessParts hp with rfl | rfl <;> decide
  · rcases mem_accessParts hp with rfl | rfl <;> decide
  · rcases mem_accessParts hp with rfl | rfl <;> decide
  · cases ex with
    | none => simp [expiryParts] at hp
    | some d =>
      simp only [expiryParts, List.mem_singleton] at hp
      rw [hp]
      intro hc
      rcases List.mem_append.mp hc with hc | hc
      · exact absurd hc (by decide)
      · exact isDigit_ne_comma (natToChars_all_digit d.secs ',' hc) rfl
  · cases ip with
    | Unspecified => simp [ipParts] at hp
    | Any =>
      simp only [ipParts, List.mem_singleton] at hp
      rw [hp]; decide
    | This addr =>
      simp only [ipParts, List.mem_singleton] at hp
      rw [hp]
      intro hc
      rcases List.mem_append.mp hc with hc | hc
      · exact absurd hc (by decide)
      · exact hipc addr rfl hc
  · rcases mem_accessParts hp with rfl | rfl <;> decide
  · rcases mem_accessParts hp with rfl | rfl <;> decide

/-! ## C5: the scope codec round-trip -/

/-- C5 counterexample: the claim as stated fails.  `Scope::named("a,b")` is
a constructible scope, but its dump is `"session:a,b"`, which the
comma-splitting parse reads back as session `"a"` (the token `"b"` is
ignored), so `decode(encode(x)) ≠ x`. -/
theorem scope_roundtrip_fails_on_comma :
    Scope.parse (Scope.dump (Scope.named "a,b".toList)) ≠ Scope.named "a,b".toList := by
  decide

/-- C5 amended: `decode(encode(x)) = x` holds for every scope whose session
name contains no comma, whose ip restriction — when it is a specific
address — is not the literal `"*"` and contains no colon and no comma, and
whose expiry, when present, is a whole number of seconds below `2 ^ 64`
(every scope obtainable from `default`/`named` with a comma-free name
satisfies this).  Unknown tokens on decode are still ignored rather than
rejected: appending an unrecognised token to the dump parses to the same
scope. -/
theorem scope_roundtrip_conditional (s : Scope)
    (hsess : ',' ∉ s.session)
    (hip : ∀ addr, s.ip = .This addr → addr ≠ "*".toList ∧ ':' ∉ addr ∧ ',' ∉ addr)
    (hexp : ∀ d, s.expires_in = some d → d.nanos = 0 ∧ d.secs < U64_MOD) :
    Scope.parse (Scope.dump s) = s
    ∧ Scope.parse (Scope.dump s ++ ',' :: "unknown-token".toList) = s := by
  have hcf := dumpParts_comma_free s hsess (fun addr ha => (hip addr ha).2.2)
  have hfold : List.foldl parseStep Scope.default (dumpParts s) = s := by
    unfold dumpParts
    simp only [List.foldl_append]
    rw [foldl_mainaccount, foldl_connection, foldl_session, foldl_account, foldl_trade,
      foldl_wallet, foldl_expiry _ _ hexp,
      foldl_ip _ _ (fun addr ha => ⟨(hip addr ha).1, (hip addr ha).2.1⟩),
      foldl_block_trade, foldl_block_rfq]
    simp [Scope.default, mergeAccess_none, mergeIP_unspecified, mergeExpiry_none]
  constructor
  · unfold Scope.parse Scope.dump
    rw [splitOn_joinComma (dumpParts s) (dumpParts_ne_nil s) hcf]
    exact hfold
  · unfold Scope.parse Scope.dump
    rw [← joinComma_append_single (dumpParts s) (dumpParts_ne_nil s) ("unknown-token".toList),
      splitOn_joinComma (dumpParts s ++ ["unknown-token".toList])
        (by simp)
        (by
          intro p hp
          rcases List.mem_append.mp hp with hp | hp
          · exact hcf p hp
          · rw [List.mem_singleton.mp hp]; decide),
      List.foldl_append, hfold]
    rfl

/-- C5 witness: a concrete scope with every kind of token round-trips, also
with an unknown token appended. -/
theorem scope_roundtrip_conditional_witness :
    (',' ∉ witnessScope.session)
    ∧ Scope.parse (Scope.dump witnessScope) = witnessScope
    ∧ Scope.parse (Scope.dump witnessScope ++ ',' :: "unknown-token".toList) = witnessScope :=
  ⟨by decide,
    (scope_roundtrip_conditional witnessScope (by decide)
      (fun addr ha => by
        have h : IP.This ("10.0.0.1".toList) = IP.This addr := ha
        cases h
        exact ⟨by decide, by decide, by decide⟩)
      (fun d hd => by
        have h : some (⟨3600, 0⟩ : Duration) = some d := hd
        cases h
        exact ⟨rfl, by norm_num [U64_MOD]⟩)).1,
    (scope_roundtrip_conditional witnessScope (by decide)
      (fun addr ha => by
        have h : IP.This ("10.0.0.1".toList) = IP.This addr := ha
        cases h
        exact ⟨by decide, by decide, by decide⟩)
      (fun d hd => by
        have h : some (⟨3600, 0⟩ : Duration) = some d := hd
        cases h
        exact ⟨rfl, by norm_num [U64_MOD]⟩)).2⟩

end Deribit
